import Mathlib

/-!
Verification development for the DAPPER benchmark driver script
(`benchmark.py`).  The script seeds a random stream, generates a synthetic
truth series `xx` and observation series `yy` from a dynamical model and an
observation model, runs the assimilation core `Assimilate(params,cfg,xx,yy)`
on them, and reports post-burn-in averages of the RMSE/RMSV statistics.

The script itself is the source of the definitions below for truth and
observation generation and for the report indexing.  The assimilation core
and the `Chronology` class live outside the given source; those parts are
modelled from the specification and are marked `Modelled from the spec:` in
their doc comments.

Machine reals are modelled as exact rationals; the external square-root
function of the numerics library is passed in as an explicit function
`sq : ℚ → ℚ`.  Randomness is modelled as one run-scoped stream
`σ : Nat → ℚ` of raw scalar draws, consumed block-wise at explicit
positions in program order, matching the single seeded global generator of
the script.
-/

namespace DAPPER

/-- State and observation vectors are finite lists of rationals. -/
abbrev Vec := List ℚ

/-- Pointwise vector addition (numpy `+` on equal-shape arrays). -/
def vadd (a b : Vec) : Vec := List.zipWith (fun x y => x + y) a b

/-- Pointwise vector subtraction. -/
def vsub (a b : Vec) : Vec := List.zipWith (fun x y => x - y) a b

/-- Scalar multiple of a vector. -/
def vsmul (c : ℚ) (v : Vec) : Vec := v.map (fun x => c * x)

/-- Sum of squared entries of a vector. -/
def sumSq (v : Vec) : ℚ := (v.map (fun x => x * x)).sum

/-- Zero vector of a given dimension (numpy `zeros`). -/
def zerosV (n : Nat) : Vec := List.replicate n 0

/-- Contiguous block of `len` raw draws of the run-scoped random stream
`σ`, starting at position `start`.  Every sampler call of the script
consumes exactly one such block. -/
def streamBlock (σ : Nat → ℚ) (start len : Nat) : List ℚ :=
  (List.range len).map (fun i => σ (start + i))

/-- A noise or initial-condition sampler: a deterministic transform of a
block of raw draws into a vector (e.g. `f.noise.sample(1)`,
`X0.sample(1)`). -/
structure Sampler where
  sample : List ℚ → Vec

/-- The dynamical model `f`: state dimension `m`, step map
`(state, time, step_size) → next_state`, and a process-noise sampler. -/
structure Model where
  m : Nat
  model : Vec → ℚ → ℚ → Vec
  noise : Sampler

/-- The observation model `h`: observation dimension `m` (the script uses
`h.m`), map `(state, time) → expected_observation`, and an
observation-noise sampler. -/
structure ObsModel where
  m : Nat
  model : Vec → ℚ → Vec
  noise : Sampler

/-- Modelled from the spec: the `Chronology` class is not part of the given
source.  Per the spec it carries the total step count `K`, the total
observation count `KObs` (the script indexes observations `0..KObs`), the
per-step time `tt` and step size `dtt`, the monotone map `kkObs` from
observation index to simulation step index, and a burn-in observation
index `kObsBI` from which statistics are meaningful. -/
structure Chronology where
  K : Nat
  KObs : Nat
  tt : Nat → ℚ
  dtt : Nat → ℚ
  kkObs : List Nat
  kObsBI : Nat

/-- Modelled from the spec: `kkObsBI`, the post-burn-in suffix of the
observation step indices, used by the report lines of the script. -/
def Chronology.kkObsBI (c : Chronology) : List Nat := c.kkObs.drop c.kObsBI

/-- Observation times: the step times at the observation step indices. -/
def Chronology.ttObs (c : Chronology) : List ℚ := c.kkObs.map c.tt

/-- The Chronology invariant stated by the spec: the observation step
indices are a strictly increasing subsequence of the simulation step
indices `0..K` (so the final simulation step is at or past the final
observation step), there is one observation index per entry of `kkObs`
(`KObs + 1` of them), and the burn-in observation index is in range. -/
def Chronology.Inv (c : Chronology) : Prop :=
  c.kkObs.length = c.KObs + 1 ∧
  c.kkObs.Pairwise (fun a b => a < b) ∧
  (∀ k ∈ c.kkObs, k ≤ c.K) ∧
  c.kObsBI ≤ c.KObs

instance (c : Chronology) : Decidable c.Inv :=
  inferInstanceAs (Decidable (c.kkObs.length = c.KObs + 1 ∧
    c.kkObs.Pairwise (fun a b => a < b) ∧
    (∀ k ∈ c.kkObs, k ≤ c.K) ∧ c.kObsBI ≤ c.KObs))

/-- The experiment parameters record `params` used by the script:
`params.f`, `params.h`, `params.t`, `params.X0`. -/
structure Params where
  f : Model
  h : ObsModel
  t : Chronology
  X0 : Sampler

/-- The closed set of analysis-method tags assigned to `cfg.da_method`
in the script (active and commented-out variants). -/
inductive DAMethod
  | EnKF
  | EnKF_N
  | iEnKF
  | PartFilt
  | ExtKF
  | Climatology
  | D3Var
  | EnsCheat
deriving DecidableEq

/-- The mutable `Settings` object `cfg` of the script, as the record of the
fields the script assigns before the run. -/
structure Settings where
  da_method : DAMethod
  N : Nat
  infl : ℚ
  AMethod : String
  rot : Bool

/-- The configuration the active (uncommented) block of the script builds:
`N = 40`, `infl = 1.01`, `AMethod = 'Sqrt'`, `rot = True`,
`da_method = EnKF`. -/
def cfgScript : Settings :=
  { da_method := DAMethod.EnKF
    N := 40
    infl := 101 / 100
    AMethod := "Sqrt"
    rot := true }

/-- Row `k` of the truth series, from the generation loop of the script:
`xx[0] = X0.sample(1)` and, for `k` in the forecast range `1..K`,
`xx[k] = f.model(xx[k-1], t-dt, dt) + sqrt(dt) * f.noise.sample(1)`.
The initial draw consumes raw positions `[0, m)` and the step-`k` noise
draw consumes `[k*m, (k+1)*m)`. -/
def truthRow (f : Model) (X0 : Sampler) (c : Chronology) (sq : ℚ → ℚ)
    (σ : Nat → ℚ) : Nat → Vec
  | 0 => X0.sample (streamBlock σ 0 f.m)
  | k + 1 =>
      vadd
        (f.model (truthRow f X0 c sq σ k)
          (c.tt (k + 1) - c.dtt (k + 1)) (c.dtt (k + 1)))
        (vsmul (sq (c.dtt (k + 1)))
          (f.noise.sample (streamBlock σ ((k + 1) * f.m) f.m)))

/-- The full truth series `xx`, rows `0..K`. -/
def genTruth (f : Model) (X0 : Sampler) (c : Chronology) (sq : ℚ → ℚ)
    (σ : Nat → ℚ) : List Vec :=
  (List.range (c.K + 1)).map (truthRow f X0 c sq σ)

/-- Number of raw draws the truth generation consumes. -/
def truthDraws (f : Model) (c : Chronology) : Nat := (c.K + 1) * f.m

/-- Row `k` of the observation series, from the generation loop of the
script: `yy[k] = h.model(xx[chrono.kkObs[k]], t) + h.noise.sample(1)` with
`t = ttObs[k]`.  The `k`-th observation-noise draw consumes raw positions
`[start + k*p, start + (k+1)*p)` where `p = h.m`. -/
def obsRow (h : ObsModel) (c : Chronology) (xx : List Vec) (start : Nat)
    (σ : Nat → ℚ) (k : Nat) : Vec :=
  vadd
    (h.model (xx.getD (c.kkObs.getD k 0) []) (c.tt (c.kkObs.getD k 0)))
    (h.noise.sample (streamBlock σ (start + k * h.m) h.m))

/-- The observation series `yy`: allocated as `zeros((KObs+1, h.m))` and
filled by the loop over `enumerate(chrono.ttObs)`; rows past the length of
`kkObs` (none, under the invariant) stay zero. -/
def genObs (h : ObsModel) (c : Chronology) (xx : List Vec) (start : Nat)
    (σ : Nat → ℚ) : List Vec :=
  (List.range (c.KObs + 1)).map
    (fun k => if k < c.kkObs.length then obsRow h c xx start σ k else zerosV h.m)

/-- Ensemble mean: the average of the member states (zero vector of the
state dimension when the ensemble is empty). -/
def ensMean (mdim : Nat) (E : List Vec) : Vec :=
  vsmul (1 / (E.length : ℚ)) (E.foldl vadd (zerosV mdim))

/-- Dimension-averaged root-mean-square distance between an estimate mean
and the truth at one step (the external square root `sq` applied to the
mean squared error). -/
def rmseOf (sq : ℚ → ℚ) (μ x : Vec) : ℚ :=
  sq (sumSq (vsub μ x) / (μ.length : ℚ))

/-- Dimension-averaged root-mean-square ensemble spread at one step:
sample variance of the member deviations from the ensemble mean, scaled by
`1/(N-1)`, dimension-averaged, under the external square root. -/
def rmsvOf (sq : ℚ → ℚ) (mdim : Nat) (E : List Vec) : ℚ :=
  sq ((E.map (fun e => sumSq (vsub e (ensMean mdim E)))).sum /
    (((E.length : ℚ) - 1) * (mdim : ℚ)))

/-- Modelled from the spec: the ensemble forecast step of the core (not in
the given source).  Every member is advanced through the model map with
the step time and size from the chronology and receives one independent
process-noise draw, scaled like the truth steps; member `i` consumes raw
positions `[pos + i*m, pos + (i+1)*m)`. -/
def forecastE (f : Model) (sq : ℚ → ℚ) (t dt : ℚ) (σ : Nat → ℚ)
    (pos : Nat) (E : List Vec) : List Vec :=
  (List.range E.length).map (fun i =>
    vadd (f.model (E.getD i []) (t - dt) dt)
      (vsmul (sq dt) (f.noise.sample (streamBlock σ (pos + i * f.m) f.m))))

/-- The running state of the assimilation driver: the ensemble, the next
unread stream position, and the truth and observation series the run was
given (held read-only per the spec). -/
structure DState where
  E : List Vec
  pos : Nat
  xx : List Vec
  yy : List Vec

/-- Modelled from the spec: one step of the Assimilation Driver loop (not
in the given source).  At step `k` it forecasts every member; if `k` is an
observation step it then applies the configured analysis variant
`analyze` to the forecast ensemble, the matching observation, and one
block of `anaDraws` raw draws (the per-analysis-step randomness such as
the optional rotation).  The truth and observation series are carried
unchanged. -/
def driveStep (P : Params) (sq : ℚ → ℚ) (σ : Nat → ℚ)
    (analyze : List Vec → Vec → List ℚ → List Vec) (anaDraws : Nat)
    (k : Nat) (st : DState) : DState :=
  let Ef := forecastE P.f sq (P.t.tt k) (P.t.dtt k) σ st.pos st.E
  let pos2 := st.pos + st.E.length * P.f.m
  if k ∈ P.t.kkObs then
    { E := analyze Ef (st.yy.getD (P.t.kkObs.indexOf k) []) (streamBlock σ pos2 anaDraws)
      pos := pos2 + anaDraws
      xx := st.xx
      yy := st.yy }
  else
    { E := Ef, pos := pos2, xx := st.xx, yy := st.yy }

/-- Modelled from the spec: the driver's initial transition samples `N`
ensemble members from the model's initial-condition sampler, consuming the
stream from position `start` onwards. -/
def driverInit (P : Params) (N : Nat) (xx yy : List Vec) (σ : Nat → ℚ)
    (start : Nat) : DState :=
  { E := (List.range N).map (fun i => P.X0.sample (streamBlock σ (start + i * P.f.m) P.f.m))
    pos := start + N * P.f.m
    xx := xx
    yy := yy }

/-- The driver state after processing steps `1..k` of the chronology. -/
def driverRows (P : Params) (cfg : Settings) (sq : ℚ → ℚ) (σ : Nat → ℚ)
    (analyze : List Vec → Vec → List ℚ → List Vec) (anaDraws : Nat)
    (xx yy : List Vec) (start : Nat) : Nat → DState
  | 0 => driverInit P cfg.N xx yy σ start
  | k + 1 =>
      driveStep P sq σ analyze anaDraws (k + 1)
        (driverRows P cfg sq σ analyze anaDraws xx yy start k)

/-- The per-run statistics object `s` returned by `Assimilate`: the RMSE
and RMSV series read by the report lines of the script. -/
structure Stats where
  rmse : List ℚ
  rmsv : List ℚ

/-- Modelled from the spec: the assimilation core
`Assimilate(params, cfg, xx, yy)` (not in the given source).  It runs the
driver loop over the whole chronology and records, for every simulation
step `0..K`, the RMSE of the current ensemble mean against the truth and
the RMSV of the current ensemble: one series of each at simulation-step
granularity, the entry at an observation step holding the post-analysis
value.  The report lines of the script read both statistics from these
series at observation step indices (analysis) and at the indices
immediately preceding them (forecast). -/
def Assimilate (P : Params) (cfg : Settings) (xx yy : List Vec)
    (sq : ℚ → ℚ) (σ : Nat → ℚ)
    (analyze : List Vec → Vec → List ℚ → List Vec) (anaDraws : Nat)
    (start : Nat) : Stats :=
  { rmse := (List.range (P.t.K + 1)).map (fun k =>
      rmseOf sq
        (ensMean P.f.m (driverRows P cfg sq σ analyze anaDraws xx yy start k).E)
        (xx.getD k []))
    rmsv := (List.range (P.t.K + 1)).map (fun k =>
      rmsvOf sq P.f.m (driverRows P cfg sq σ analyze anaDraws xx yy start k).E) }

/-- Indexing a numpy 1-d array by a possibly negative integer: a
nonnegative index reads from the front, a negative index wraps from the
back (no bounds error is raised for `-len ≤ i < len`). -/
def npGet (xs : List ℚ) (i : Int) : ℚ :=
  if 0 ≤ i then xs.getD i.toNat 0 else xs.getD (xs.length - (-i).toNat) 0

/-- Fancy indexing `xs[idxs]` of a series by a list of integer indices. -/
def selectI (xs : List ℚ) (idxs : List Int) : List ℚ :=
  idxs.map (npGet xs)

/-- The index list `chrono.kkObsBI` used by the analysis report line. -/
def analysisIdx (c : Chronology) : List Int :=
  c.kkObsBI.map Int.ofNat

/-- The index list `chrono.kkObsBI - 1` used by the forecast report line. -/
def forecastIdx (c : Chronology) : List Int :=
  c.kkObsBI.map (fun k => Int.ofNat k - 1)

/-- Arithmetic mean of a series (numpy `mean`). -/
def meanQ (xs : List ℚ) : ℚ := xs.sum / (xs.length : ℚ)

/-- The analysis report line: the mean RMSE over `s.rmse[chrono.kkObsBI]`
and the mean RMSV over `s.rmsv[chrono.kkObsBI]` (the confidence radius of
`series_mean_with_conf` is omitted; no claim concerns it). -/
def reportAnalysis (s : Stats) (c : Chronology) : ℚ × ℚ :=
  (meanQ (selectI s.rmse (analysisIdx c)),
   meanQ (selectI s.rmsv (analysisIdx c)))

/-- The forecast report line: the mean RMSE over
`s.rmse[chrono.kkObsBI - 1]` and the mean RMSV over
`s.rmsv[chrono.kkObsBI - 1]`. -/
def reportForecast (s : Stats) (c : Chronology) : ℚ × ℚ :=
  (meanQ (selectI s.rmse (forecastIdx c)),
   meanQ (selectI s.rmsv (forecastIdx c)))

/-- Everything one execution of the script produces: the generated truth
and observations, the statistics of the run, and the two report lines. -/
structure RunOutput where
  xx : List Vec
  yy : List Vec
  s : Stats
  reportA : ℚ × ℚ
  reportF : ℚ × ℚ

/-- Number of raw draws one execution of the script consumes: the truth
draws, the observation-noise draws, the initial-ensemble draws, and the
per-step forecast/analysis draws of the driver. -/
def totalDraws (P : Params) (cfg : Settings) (anaDraws : Nat) : Nat :=
  truthDraws P.f P.t + (P.t.KObs + 1) * P.h.m + cfg.N * P.f.m +
    P.t.K * (cfg.N * P.f.m + anaDraws)

/-- One complete execution of the script after seeding: build the
configuration, generate the truth, generate the observations, run the
assimilation core, and form the report lines — all consuming the single
run-scoped stream `σ` in program order. -/
def runScript (P : Params) (cfg : Settings) (sq : ℚ → ℚ)
    (analyze : List Vec → Vec → List ℚ → List Vec) (anaDraws : Nat)
    (σ : Nat → ℚ) : RunOutput :=
  let xx := genTruth P.f P.X0 P.t sq σ
  let obsStart := truthDraws P.f P.t
  let yy := genObs P.h P.t xx obsStart σ
  let assimStart := obsStart + (P.t.KObs + 1) * P.h.m
  let s := Assimilate P cfg xx yy sq σ analyze anaDraws assimStart
  { xx := xx, yy := yy, s := s
    reportA := reportAnalysis s P.t
    reportF := reportForecast s P.t }

/-- An integer index is in bounds for a series of length `len` when it is
nonnegative and below `len` (a negative index, though silently wrapped by
numpy, does not address the intended entry). -/
def InBounds (len : Nat) (i : Int) : Prop := 0 ≤ i ∧ i < (len : Int)

instance (len : Nat) (i : Int) : Decidable (InBounds len i) :=
  inferInstanceAs (Decidable (0 ≤ i ∧ i < (len : Int)))

/-- Modelled from the spec: the length the specification assigns to the
analysis-granularity statistic series of the Statistics Tracker, namely
`KObs + 1`; used to compare the spec's two-series layout against the
single series the report lines of the script index. -/
def specAnalysisLen (c : Chronology) : Nat := c.KObs + 1

/-! Concrete instances used to evaluate the definitions. -/

/-- A one-dimensional model whose step map is the identity on the state
and whose noise sampler passes the raw draw through. -/
def mTriv : Model :=
  { m := 1, model := fun x _ _ => x, noise := { sample := fun d => d } }

/-- A one-dimensional observation model observing the state directly. -/
def hTriv : ObsModel :=
  { m := 1, model := fun x _ => x, noise := { sample := fun d => d } }

/-- An initial-condition sampler passing the raw draw through. -/
def x0Triv : Sampler := { sample := fun d => d }

/-- A well-formed chronology: three steps `0,1,2`, observations at steps
`1` and `2`, no burn-in. -/
def chron1 : Chronology :=
  { K := 2, KObs := 1, tt := fun k => (k : ℚ), dtt := fun _ => 1
    kkObs := [1, 2], kObsBI := 0 }

/-- A chronology satisfying the stated invariant whose last observation
step `3` lies strictly past `KObs + 1 = 2`. -/
def chronGap : Chronology :=
  { K := 3, KObs := 1, tt := fun k => (k : ℚ), dtt := fun _ => 1
    kkObs := [1, 3], kObsBI := 0 }

/-- A chronology satisfying the stated invariant with an observation at
simulation step `0`. -/
def chronZero : Chronology :=
  { K := 2, KObs := 1, tt := fun k => (k : ℚ), dtt := fun _ => 1
    kkObs := [0, 2], kObsBI := 0 }

/-- Concrete parameters over the trivial model and `chron1`. -/
def pTriv : Params := { f := mTriv, h := hTriv, t := chron1, X0 := x0Triv }

/-- A small concrete configuration. -/
def cfgTriv : Settings :=
  { da_method := DAMethod.EnKF, N := 2, infl := 1, AMethod := "Sqrt", rot := false }

/-- The all-zero raw stream. -/
def sigma0 : Nat → ℚ := fun _ => 0

/-- The identity stand-in for the external square root. -/
def sqId : ℚ → ℚ := fun q => q

/-- The identity analysis variant (the Climatology behaviour: the
forecast ensemble is returned unchanged). -/
def anzId : List Vec → Vec → List ℚ → List Vec := fun E _ _ => E

/-- A one-dimensional model whose step map and samplers always return a
vector of the declared dimension. -/
def mDim : Model :=
  { m := 1, model := fun v _ _ => [v.headD 0]
    noise := { sample := fun d => [d.headD 0] } }

/-- A dimension-strict initial-condition sampler matching `mDim`. -/
def x0Dim : Sampler := { sample := fun d => [d.headD 0] }

/-- Concrete parameters over the trivial model and `chronZero`. -/
def pZero : Params := { f := mTriv, h := hTriv, t := chronZero, X0 := x0Triv }

/-- A stream equal to `sigma0` on the draws `runScript` consumes for
`pTriv`/`cfgTriv` with no analysis draws (eleven of them) and different
beyond. -/
def sigmaAlt : Nat → ℚ := fun i => if i < 11 then 0 else 1

/-! Basic length and congruence lemmas. -/

lemma length_vadd (a b : Vec) : (vadd a b).length = min a.length b.length := by
  simp [vadd]

lemma length_vsmul (c : ℚ) (v : Vec) : (vsmul c v).length = v.length :=
  List.length_map v _

lemma length_streamBlock (σ : Nat → ℚ) (start len : Nat) :
    (streamBlock σ start len).length = len := by
  simp [streamBlock]

lemma streamBlock_congr {σ₁ σ₂ : Nat → ℚ} {start len : Nat}
    (h : ∀ i, i < start + len → σ₁ i = σ₂ i) :
    streamBlock σ₁ start len = streamBlock σ₂ start len := by
  unfold streamBlock
  apply List.map_congr_left
  intro i hi
  exact h (start + i) (Nat.add_lt_add_left (List.mem_range.mp hi) start)

lemma genTruth_getD (f : Model) (X0 : Sampler) (c : Chronology)
    (sq : ℚ → ℚ) (σ : Nat → ℚ) {k : Nat} (hk : k < c.K + 1) :
    (genTruth f X0 c sq σ).getD k [] = truthRow f X0 c sq σ k := by
  unfold genTruth
  rw [List.getD_eq_getElem?_getD, List.getElem?_map, List.getElem?_range hk]
  simp

lemma genTruth_length (f : Model) (X0 : Sampler) (c : Chronology)
    (sq : ℚ → ℚ) (σ : Nat → ℚ) :
    (genTruth f X0 c sq σ).length = c.K + 1 := by
  simp [genTruth]

lemma genObs_getD (h : ObsModel) (c : Chronology) (xx : List Vec)
    (start : Nat) (σ : Nat → ℚ) {k : Nat} (hk : k < c.KObs + 1)
    (hk2 : k < c.kkObs.length) :
    (genObs h c xx start σ).getD k [] = obsRow h c xx start σ k := by
  unfold genObs
  rw [List.getD_eq_getElem?_getD, List.getElem?_map, List.getElem?_range hk]
  simp [hk2]

lemma genObs_length (h : ObsModel) (c : Chronology) (xx : List Vec)
    (start : Nat) (σ : Nat → ℚ) :
    (genObs h c xx start σ).length = c.KObs + 1 := by
  simp [genObs]

lemma getD_map_of_lt {α β : Type} (f : α → β) (l : List α) (b : β) (d : α)
    {j : Nat} (hj : j < l.length) :
    (l.map f).getD j b = f (l.getD j d) := by
  rw [List.getD_eq_getElem?_getD, List.getElem?_map, List.getElem?_eq_getElem hj,
    List.getD_eq_getElem?_getD, List.getElem?_eq_getElem hj]
  rfl

lemma truthRow_congr {f : Model} {X0 : Sampler} {c : Chronology}
    {sq : ℚ → ℚ} {σ₁ σ₂ : Nat → ℚ} (k : Nat)
    (h : ∀ i, i < (k + 1) * f.m → σ₁ i = σ₂ i) :
    truthRow f X0 c sq σ₁ k = truthRow f X0 c sq σ₂ k := by
  induction k with
  | zero =>
      simp only [truthRow]
      rw [streamBlock_congr (fun i hi => h i (by simpa using hi))]
  | succ k ih =>
      have hmul : (k + 1) * f.m + f.m = (k + 1 + 1) * f.m := by ring
      simp only [truthRow]
      rw [ih (fun i hi => h i (lt_of_lt_of_le hi
        (Nat.mul_le_mul_right f.m (by omega))))]
      rw [streamBlock_congr (fun i hi => h i (by rw [← hmul]; exact hi))]

lemma genTruth_congr {f : Model} {X0 : Sampler} {c : Chronology}
    {sq : ℚ → ℚ} {σ₁ σ₂ : Nat → ℚ}
    (h : ∀ i, i < (c.K + 1) * f.m → σ₁ i = σ₂ i) :
    genTruth f X0 c sq σ₁ = genTruth f X0 c sq σ₂ := by
  unfold genTruth
  apply List.map_congr_left
  intro k hk
  exact truthRow_congr k (fun i hi => h i (lt_of_lt_of_le hi
    (Nat.mul_le_mul_right f.m (List.mem_range.mp hk))))

lemma genObs_congr {h : ObsModel} {c : Chronology} {xx : List Vec}
    {start : Nat} {σ₁ σ₂ : Nat → ℚ}
    (hσ : ∀ i, i < start + (c.KObs + 1) * h.m → σ₁ i = σ₂ i) :
    genObs h c xx start σ₁ = genObs h c xx start σ₂ := by
  unfold genObs
  apply List.map_congr_left
  intro k hk
  by_cases hkl : k < c.kkObs.length
  · have hb : start + k * h.m + h.m ≤ start + (c.KObs + 1) * h.m := by
      have : (k + 1) * h.m ≤ (c.KObs + 1) * h.m :=
        Nat.mul_le_mul_right h.m (List.mem_range.mp hk)
      calc start + k * h.m + h.m = start + (k + 1) * h.m := by ring
        _ ≤ start + (c.KObs + 1) * h.m := by omega
    simp only [hkl, if_true, obsRow]
    rw [streamBlock_congr (fun i hi => hσ i (lt_of_lt_of_le hi hb))]
  · simp [hkl]

lemma forecastE_length (f : Model) (sq : ℚ → ℚ) (t dt : ℚ) (σ : Nat → ℚ)
    (pos : Nat) (E : List Vec) :
    (forecastE f sq t dt σ pos E).length = E.length := by
  simp [forecastE]

lemma forecastE_congr {f : Model} {sq : ℚ → ℚ} {t dt : ℚ}
    {σ₁ σ₂ : Nat → ℚ} {pos : Nat} {E : List Vec}
    (h : ∀ i, i < pos + E.length * f.m → σ₁ i = σ₂ i) :
    forecastE f sq t dt σ₁ pos E = forecastE f sq t dt σ₂ pos E := by
  unfold forecastE
  apply List.map_congr_left
  intro i hi
  have hb : pos + i * f.m + f.m ≤ pos + E.length * f.m := by
    have : (i + 1) * f.m ≤ E.length * f.m :=
      Nat.mul_le_mul_right f.m (List.mem_range.mp hi)
    calc pos + i * f.m + f.m = pos + (i + 1) * f.m := by ring
      _ ≤ pos + E.length * f.m := by omega
  rw [streamBlock_congr (fun j hj => h j (lt_of_lt_of_le hj hb))]

lemma driveStep_congr {P : Params} {sq : ℚ → ℚ} {σ₁ σ₂ : Nat → ℚ}
    {analyze : List Vec → Vec → List ℚ → List Vec} {anaDraws : Nat}
    (k : Nat) (st : DState)
    (h : ∀ i, i < st.pos + st.E.length * P.f.m + anaDraws → σ₁ i = σ₂ i) :
    driveStep P sq σ₁ analyze anaDraws k st =
      driveStep P sq σ₂ analyze anaDraws k st := by
  unfold driveStep
  have hF : forecastE P.f sq (P.t.tt k) (P.t.dtt k) σ₁ st.pos st.E =
      forecastE P.f sq (P.t.tt k) (P.t.dtt k) σ₂ st.pos st.E :=
    forecastE_congr (fun i hi => h i (by omega))
  have hB : streamBlock σ₁ (st.pos + st.E.length * P.f.m) anaDraws =
      streamBlock σ₂ (st.pos + st.E.length * P.f.m) anaDraws :=
    streamBlock_congr (fun i hi => h i hi)
  simp only [hF, hB]

lemma driverRows_frame (P : Params) (cfg : Settings) (sq : ℚ → ℚ)
    (σ : Nat → ℚ) (analyze : List Vec → Vec → List ℚ → List Vec)
    (anaDraws : Nat) (xx yy : List Vec) (start : Nat) (k : Nat) :
    (driverRows P cfg sq σ analyze anaDraws xx yy start k).xx = xx ∧
    (driverRows P cfg sq σ analyze anaDraws xx yy start k).yy = yy := by
  induction k with
  | zero => exact ⟨rfl, rfl⟩
  | succ k ih =>
      simp only [driverRows, driveStep]
      by_cases hk : (k + 1) ∈ P.t.kkObs
      · simpa [hk] using ih
      · simpa [hk] using ih

lemma driverRows_len_pos {P : Params} {cfg : Settings} {sq : ℚ → ℚ}
    {σ : Nat → ℚ} {analyze : List Vec → Vec → List ℚ → List Vec}
    {anaDraws : Nat} {xx yy : List Vec} {start : Nat}
    (hL : ∀ E y d, (analyze E y d).length = E.length) (k : Nat) :
    (driverRows P cfg sq σ analyze anaDraws xx yy start k).E.length = cfg.N ∧
    (driverRows P cfg sq σ analyze anaDraws xx yy start k).pos ≤
      start + cfg.N * P.f.m + k * (cfg.N * P.f.m + anaDraws) := by
  induction k with
  | zero =>
      constructor
      · simp [driverRows, driverInit]
      · simp [driverRows, driverInit]
  | succ k ih =>
      obtain ⟨ihE, ihp⟩ := ih
      have hstep : k * (cfg.N * P.f.m + anaDraws) + (cfg.N * P.f.m + anaDraws) =
          (k + 1) * (cfg.N * P.f.m + anaDraws) := by ring
      simp only [driverRows, driveStep]
      by_cases hk : (k + 1) ∈ P.t.kkObs
      · constructor
        · simp [hk, hL, forecastE_length, ihE]
        · simp only [hk, if_true]
          rw [ihE]
          omega
      · constructor
        · simp [hk, forecastE_length, ihE]
        · simp only [hk, if_false]
          rw [ihE]
          omega

lemma driverRows_congr {P : Params} {cfg : Settings} {sq : ℚ → ℚ}
    {σ₁ σ₂ : Nat → ℚ} {analyze : List Vec → Vec → List ℚ → List Vec}
    {anaDraws : Nat} {xx yy : List Vec} {start : Nat}
    (hL : ∀ E y d, (analyze E y d).length = E.length)
    (hσ : ∀ i, i < start + cfg.N * P.f.m +
      P.t.K * (cfg.N * P.f.m + anaDraws) → σ₁ i = σ₂ i) :
    ∀ k, k ≤ P.t.K →
      driverRows P cfg sq σ₁ analyze anaDraws xx yy start k =
        driverRows P cfg sq σ₂ analyze anaDraws xx yy start k := by
  intro k
  induction k with
  | zero =>
      intro _
      simp only [driverRows, driverInit]
      congr 1
      apply List.map_congr_left
      intro i hi
      have hb : start + i * P.f.m + P.f.m ≤ start + cfg.N * P.f.m := by
        have : (i + 1) * P.f.m ≤ cfg.N * P.f.m :=
          Nat.mul_le_mul_right P.f.m (List.mem_range.mp hi)
        calc start + i * P.f.m + P.f.m = start + (i + 1) * P.f.m := by ring
          _ ≤ start + cfg.N * P.f.m := by omega
      rw [streamBlock_congr (fun j hj => hσ j (lt_of_lt_of_le hj (by omega)))]
  | succ k ih =>
      intro hk
      have hk0 : k ≤ P.t.K := by omega
      obtain ⟨hE, hp⟩ :=
        @driverRows_len_pos P cfg sq σ₁ analyze anaDraws xx yy start hL k
      simp only [driverRows]
      rw [ih hk0]
      apply driveStep_congr
      intro i hi
      apply hσ
      have hkc : (k + 1) * (cfg.N * P.f.m + anaDraws) ≤
          P.t.K * (cfg.N * P.f.m + anaDraws) :=
        Nat.mul_le_mul_right _ hk
      have hE2 : (driverRows P cfg sq σ₂ analyze anaDraws xx yy start k).E.length
          = cfg.N := by
        rw [← ih hk0]; exact hE
      have hp2 : (driverRows P cfg sq σ₂ analyze anaDraws xx yy start k).pos ≤
          start + cfg.N * P.f.m + k * (cfg.N * P.f.m + anaDraws) := by
        rw [← ih hk0]; exact hp
      rw [hE2] at hi
      have hstep : k * (cfg.N * P.f.m + anaDraws) + (cfg.N * P.f.m + anaDraws) =
          (k + 1) * (cfg.N * P.f.m + anaDraws) := by ring
      omega

lemma Assimilate_congr {P : Params} {cfg : Settings} {xx yy : List Vec}
    {sq : ℚ → ℚ} {σ₁ σ₂ : Nat → ℚ}
    {analyze : List Vec → Vec → List ℚ → List Vec} {anaDraws : Nat}
    {start : Nat}
    (hL : ∀ E y d, (analyze E y d).length = E.length)
    (hσ : ∀ i, i < start + cfg.N * P.f.m +
      P.t.K * (cfg.N * P.f.m + anaDraws) → σ₁ i = σ₂ i) :
    Assimilate P cfg xx yy sq σ₁ analyze anaDraws start =
      Assimilate P cfg xx yy sq σ₂ analyze anaDraws start := by
  unfold Assimilate
  have hrows : ∀ k ∈ List.range (P.t.K + 1),
      driverRows P cfg sq σ₁ analyze anaDraws xx yy start k =
        driverRows P cfg sq σ₂ analyze anaDraws xx yy start k := by
    intro k hk
    exact driverRows_congr hL hσ k (by simpa [Nat.lt_succ_iff] using List.mem_range.mp hk)
  congr 1
  · apply List.map_congr_left
    intro k hk
    rw [hrows k hk]
  · apply List.map_congr_left
    intro k hk
    rw [hrows k hk]

lemma vsub_vadd_left : ∀ (a b : Vec), a.length = b.length →
    vsub (vadd a b) a = b := by
  intro a
  induction a with
  | nil =>
      intro b hb
      cases b with
      | nil => rfl
      | cons y ys => simp at hb
  | cons x xs ih =>
      intro b hb
      cases b with
      | nil => simp at hb
      | cons y ys =>
          have hlen : xs.length = ys.length := by simpa using hb
          have htail := ih ys hlen
          simp only [vadd, vsub, List.zipWith] at htail ⊢
          rw [add_sub_cancel_left, htail]

lemma sumSq_vsmul (q : ℚ) (v : Vec) :
    sumSq (vsmul q v) = q * q * sumSq v := by
  induction v with
  | nil => simp [sumSq, vsmul]
  | cons x xs ih =>
      simp only [sumSq, vsmul, List.map, List.sum_cons] at *
      rw [ih]
      ring

lemma truthRow_length {f : Model} {X0 : Sampler} {c : Chronology}
    {sq : ℚ → ℚ} {σ : Nat → ℚ}
    (hX : ∀ d, (X0.sample d).length = f.m)
    (hM : ∀ v t dt, (f.model v t dt).length = f.m)
    (hN : ∀ d, (f.noise.sample d).length = f.m) :
    ∀ k, (truthRow f X0 c sq σ k).length = f.m := by
  intro k
  induction k with
  | zero => simp [truthRow, hX]
  | succ k ih =>
      simp [truthRow, length_vadd, length_vsmul, hM, hN]

lemma mem_analysisIdx {c : Chronology} {i : Int} (hi : i ∈ analysisIdx c) :
    ∃ k ∈ c.kkObs, i = Int.ofNat k := by
  unfold analysisIdx at hi
  obtain ⟨k, hk, rfl⟩ := List.mem_map.mp hi
  exact ⟨k, List.drop_subset _ _ hk, rfl⟩

lemma mem_forecastIdx {c : Chronology} {i : Int} (hi : i ∈ forecastIdx c) :
    ∃ k ∈ c.kkObs, i = Int.ofNat k - 1 := by
  unfold forecastIdx at hi
  obtain ⟨k, hk, rfl⟩ := List.mem_map.mp hi
  exact ⟨k, List.drop_subset _ _ hk, rfl⟩

lemma selectI_getD {xs : List ℚ} {idxs : List Int} {j : Nat}
    (hj : j < idxs.length) :
    (selectI xs idxs).getD j 0 = npGet xs (idxs.getD j 0) := by
  unfold selectI
  exact getD_map_of_lt (npGet xs) idxs 0 0 hj

/-! Claim theorems. -/

/-- Claim C1, counterexample: the claim as stated is false.  With the
chronology `chronGap` (which satisfies the stated invariant), the driver's
analysis report reads the statistic series at the observation step index
`3` (`chrono.kkObsBI` holds simulation-step indices), which is out of
bounds for a separate analysis series of the spec's length `KObs + 1 = 2`;
so no pair of separate series of lengths `K+1` and `KObs+1` supports the
reads the script performs. -/
theorem claim1_cex :
    Chronology.Inv chronGap ∧
    (analysisIdx chronGap).getD 1 0 = 3 ∧
    ¬ InBounds (specAnalysisLen chronGap) ((analysisIdx chronGap).getD 1 0) := by
  decide

/-- Claim C1, amended: the statistics object holds the RMSE and RMSV as
single series of length exactly `K + 1` at simulation-step granularity
(the entry at an observation step holding the analysis value), and the
driver reads analysis statistics at the observation step indices and
forecast statistics at the indices immediately preceding them out of
these same series. -/
theorem claim1_stats_lengths (P : Params) (cfg : Settings)
    (xx yy : List Vec) (sq : ℚ → ℚ) (σ : Nat → ℚ)
    (analyze : List Vec → Vec → List ℚ → List Vec) (anaDraws start : Nat) :
    (Assimilate P cfg xx yy sq σ analyze anaDraws start).rmse.length = P.t.K + 1 ∧
    (Assimilate P cfg xx yy sq σ analyze anaDraws start).rmsv.length = P.t.K + 1 := by
  constructor <;> simp [Assimilate]

/-- Claim C2, counterexample: on the well-formed chronology `chron1`, the
generated observation series has length `KObs + 1 = 2`, not `KObs = 1` as
the claim states. -/
theorem claim2_cex :
    Chronology.Inv chron1 ∧
    (genObs hTriv chron1 (genTruth mTriv x0Triv chron1 sqId sigma0)
      (truthDraws mTriv chron1) sigma0).length ≠ chron1.KObs := by
  decide

/-- Claim C2, amended: the observation series supplied to the assimilation
core has length `KObs + 1` (one observation per observation step, with one
observation index per entry of `kkObs`), and the truth series is
full-length: `K + 1` states, each of dimension `m` whenever the model map
and both samplers respect the state dimension. -/
theorem claim2_series_lengths (f : Model) (X0 : Sampler) (hob : ObsModel)
    (c : Chronology) (xx : List Vec) (start : Nat) (sq : ℚ → ℚ)
    (σ : Nat → ℚ)
    (hX : ∀ d, (X0.sample d).length = f.m)
    (hM : ∀ v t dt, (f.model v t dt).length = f.m)
    (hN : ∀ d, (f.noise.sample d).length = f.m) :
    (genObs hob c xx start σ).length = c.KObs + 1 ∧
    (genTruth f X0 c sq σ).length = c.K + 1 ∧
    ∀ k, k < c.K + 1 → ((genTruth f X0 c sq σ).getD k []).length = f.m := by
  refine ⟨genObs_length hob c xx start σ, genTruth_length f X0 c sq σ, ?_⟩
  intro k hk
  rw [genTruth_getD f X0 c sq σ hk]
  exact truthRow_length hX hM hN k

/-- Witness for the amended claim C2 at a concrete input. -/
theorem claim2_series_lengths_witness :
    (genObs hTriv chron1 [] 5 sigma0).length = chron1.KObs + 1 ∧
    (genTruth mDim x0Dim chron1 sqId sigma0).length = chron1.K + 1 ∧
    ∀ k, k < chron1.K + 1 →
      ((genTruth mDim x0Dim chron1 sqId sigma0).getD k []).length = mDim.m :=
  claim2_series_lengths mDim x0Dim hTriv chron1 [] 5 sqId sigma0
    (fun _ => rfl) (fun _ _ _ => rfl) (fun _ => rfl)

/-- Claim C3: truth generation is Markov and strictly forward in time —
the initial row is one draw from the initial-condition sampler, row `k+1`
is the model step applied to row `k` with that step's time and size plus
the step's own fresh scaled noise draw, and row `k` depends only on the
raw draws consumed up to and including step `k` (draws of later steps
never revise it). -/
theorem claim3_truth_markov (f : Model) (X0 : Sampler) (c : Chronology)
    (sq : ℚ → ℚ) (σ : Nat → ℚ) (k : Nat) (hk : k < c.K) :
    (genTruth f X0 c sq σ).getD (k + 1) [] =
      vadd
        (f.model ((genTruth f X0 c sq σ).getD k [])
          (c.tt (k + 1) - c.dtt (k + 1)) (c.dtt (k + 1)))
        (vsmul (sq (c.dtt (k + 1)))
          (f.noise.sample (streamBlock σ ((k + 1) * f.m) f.m))) ∧
    (genTruth f X0 c sq σ).getD 0 [] = X0.sample (streamBlock σ 0 f.m) ∧
    (∀ σ₂ : Nat → ℚ, (∀ i, i < (k + 1) * f.m → σ i = σ₂ i) →
      (genTruth f X0 c sq σ).getD k [] = (genTruth f X0 c sq σ₂).getD k []) := by
  have hk1 : k < c.K + 1 := by omega
  have hk2 : k + 1 < c.K + 1 := by omega
  refine ⟨?_, ?_, ?_⟩
  · rw [genTruth_getD f X0 c sq σ hk2, genTruth_getD f X0 c sq σ hk1]
    simp [truthRow]
  · rw [genTruth_getD f X0 c sq σ (Nat.succ_pos c.K)]
    simp [truthRow]
  · intro σ₂ hσ
    rw [genTruth_getD f X0 c sq σ hk1, genTruth_getD f X0 c sq σ₂ hk1]
    exact truthRow_congr k hσ

/-- Witness for claim C3 at a concrete input. -/
theorem claim3_truth_markov_witness :
    (genTruth mTriv x0Triv chron1 sqId sigma0).getD 1 [] =
      vadd
        (mTriv.model ((genTruth mTriv x0Triv chron1 sqId sigma0).getD 0 [])
          (chron1.tt 1 - chron1.dtt 1) (chron1.dtt 1))
        (vsmul (sqId (chron1.dtt 1))
          (mTriv.noise.sample (streamBlock sigma0 (1 * mTriv.m) mTriv.m))) ∧
    (genTruth mTriv x0Triv chron1 sqId sigma0).getD 0 [] =
      x0Triv.sample (streamBlock sigma0 0 mTriv.m) ∧
    (∀ σ₂ : Nat → ℚ, (∀ i, i < 1 * mTriv.m → sigma0 i = σ₂ i) →
      (genTruth mTriv x0Triv chron1 sqId sigma0).getD 0 [] =
        (genTruth mTriv x0Triv chron1 sqId σ₂).getD 0 []) :=
  claim3_truth_markov mTriv x0Triv chron1 sqId sigma0 0 (by decide)

/-- Claim C4: observation `k` equals the observation map applied to the
true state at the matching simulation step `kkObs[k]` at time
`ttObs[k] = tt(kkObs[k])`, plus exactly the `k`-th observation-noise
draw; and it depends on the truth series only through the row at its own
observation step. -/
theorem claim4_obs_pointwise (hob : ObsModel) (c : Chronology)
    (xx xx₂ : List Vec) (start : Nat) (σ : Nat → ℚ) (k : Nat)
    (hk : k < c.KObs + 1) (hkl : k < c.kkObs.length) :
    (genObs hob c xx start σ).getD k [] =
      vadd
        (hob.model (xx.getD (c.kkObs.getD k 0) []) (c.tt (c.kkObs.getD k 0)))
        (hob.noise.sample (streamBlock σ (start + k * hob.m) hob.m)) ∧
    (xx₂.getD (c.kkObs.getD k 0) [] = xx.getD (c.kkObs.getD k 0) [] →
      (genObs hob c xx₂ start σ).getD k [] = (genObs hob c xx start σ).getD k []) := by
  constructor
  · rw [genObs_getD hob c xx start σ hk hkl]
    rfl
  · intro hxx
    rw [genObs_getD hob c xx start σ hk hkl, genObs_getD hob c xx₂ start σ hk hkl]
    unfold obsRow
    rw [hxx]

/-- Witness for claim C4 at a concrete input. -/
theorem claim4_obs_pointwise_witness :
    (genObs hTriv chron1 [[7], [8], [9]] 3 sigma0).getD 0 [] =
      vadd
        (hTriv.model ([[7], [8], [9]].getD (chron1.kkObs.getD 0 0) [])
          (chron1.tt (chron1.kkObs.getD 0 0)))
        (hTriv.noise.sample (streamBlock sigma0 (3 + 0 * hTriv.m) hTriv.m)) ∧
    (([[7], [8], [10]] : List Vec).getD (chron1.kkObs.getD 0 0) [] =
        ([[7], [8], [9]] : List Vec).getD (chron1.kkObs.getD 0 0) [] →
      (genObs hTriv chron1 [[7], [8], [10]] 3 sigma0).getD 0 [] =
        (genObs hTriv chron1 [[7], [8], [9]] 3 sigma0).getD 0 []) :=
  claim4_obs_pointwise hTriv chron1 [[7], [8], [9]] [[7], [8], [10]] 3 sigma0 0
    (by decide) (by decide)

lemma truth_le_totalDraws (P : Params) (cfg : Settings) (anaDraws : Nat) :
    (P.t.K + 1) * P.f.m ≤ totalDraws P cfg anaDraws := by
  have h : ∀ a b c d : Nat, a ≤ a + b + c + d := by intro a b c d; omega
  unfold totalDraws truthDraws
  exact h _ _ _ _

lemma obs_le_totalDraws (P : Params) (cfg : Settings) (anaDraws : Nat) :
    truthDraws P.f P.t + (P.t.KObs + 1) * P.h.m ≤ totalDraws P cfg anaDraws := by
  have h : ∀ a b c d : Nat, a + b ≤ a + b + c + d := by intro a b c d; omega
  unfold totalDraws
  exact h _ _ _ _

lemma assim_bound_eq (P : Params) (cfg : Settings) (anaDraws : Nat) :
    truthDraws P.f P.t + (P.t.KObs + 1) * P.h.m + cfg.N * P.f.m +
      P.t.K * (cfg.N * P.f.m + anaDraws) = totalDraws P cfg anaDraws := rfl

/-- Claim C5: the complete pipeline is deterministic — its output is a
function of the inputs and of the raw values the single run-scoped stream
supplies at the finitely many positions the run consumes, so two
executions with the same seed (hence the same stream) and identical
inputs produce identical truth series, observation series, and Run
Output. -/
theorem claim5_run_deterministic (P : Params) (cfg : Settings)
    (sq : ℚ → ℚ) (analyze : List Vec → Vec → List ℚ → List Vec)
    (anaDraws : Nat) (σ₁ σ₂ : Nat → ℚ)
    (hL : ∀ E y d, (analyze E y d).length = E.length)
    (hσ : ∀ i, i < totalDraws P cfg anaDraws → σ₁ i = σ₂ i) :
    runScript P cfg sq analyze anaDraws σ₁ =
      runScript P cfg sq analyze anaDraws σ₂ := by
  have h1 : genTruth P.f P.X0 P.t sq σ₁ = genTruth P.f P.X0 P.t sq σ₂ :=
    genTruth_congr (fun i hi => hσ i
      (lt_of_lt_of_le hi (truth_le_totalDraws P cfg anaDraws)))
  have h2 : genObs P.h P.t (genTruth P.f P.X0 P.t sq σ₂) (truthDraws P.f P.t) σ₁ =
      genObs P.h P.t (genTruth P.f P.X0 P.t sq σ₂) (truthDraws P.f P.t) σ₂ :=
    genObs_congr (fun i hi => hσ i
      (lt_of_lt_of_le hi (obs_le_totalDraws P cfg anaDraws)))
  have h3 : Assimilate P cfg (genTruth P.f P.X0 P.t sq σ₂)
      (genObs P.h P.t (genTruth P.f P.X0 P.t sq σ₂) (truthDraws P.f P.t) σ₂)
      sq σ₁ analyze anaDraws (truthDraws P.f P.t + (P.t.KObs + 1) * P.h.m) =
      Assimilate P cfg (genTruth P.f P.X0 P.t sq σ₂)
      (genObs P.h P.t (genTruth P.f P.X0 P.t sq σ₂) (truthDraws P.f P.t) σ₂)
      sq σ₂ analyze anaDraws (truthDraws P.f P.t + (P.t.KObs + 1) * P.h.m) :=
    Assimilate_congr hL (fun i hi => hσ i
      (by rw [← assim_bound_eq P cfg anaDraws]; exact hi))
  simp only [runScript]
  rw [h1, h2, h3]

/-- Witness for claim C5 at a concrete input: two streams agreeing on the
eleven consumed positions but different beyond give identical output. -/
theorem claim5_run_deterministic_witness :
    (∀ E y d, (anzId E y d).length = E.length) ∧
    runScript pTriv cfgTriv sqId anzId 0 sigma0 =
      runScript pTriv cfgTriv sqId anzId 0 sigmaAlt :=
  ⟨fun _ _ _ => rfl,
   claim5_run_deterministic pTriv cfgTriv sqId anzId 0 sigma0 sigmaAlt
     (fun _ _ _ => rfl)
     (fun i hi => by
       have h11 : i < 11 := hi
       simp [sigma0, sigmaAlt, h11])⟩

/-- Claim C6: the RMSE and RMSV series are kept at matching time indices —
the reported analysis averages read both series at exactly the
post-burn-in observation step indices `kkObsBI` (the suffix of `kkObs`
after the burn-in index), and the reported forecast averages read both
series at exactly those indices minus one, identically for RMSE and
RMSV. -/
theorem claim6_report_alignment (s : Stats) (c : Chronology) (j : Nat)
    (hj : j < c.kkObsBI.length) :
    (selectI s.rmse (analysisIdx c)).getD j 0 =
      npGet s.rmse (Int.ofNat (c.kkObsBI.getD j 0)) ∧
    (selectI s.rmsv (analysisIdx c)).getD j 0 =
      npGet s.rmsv (Int.ofNat (c.kkObsBI.getD j 0)) ∧
    (selectI s.rmse (forecastIdx c)).getD j 0 =
      npGet s.rmse (Int.ofNat (c.kkObsBI.getD j 0) - 1) ∧
    (selectI s.rmsv (forecastIdx c)).getD j 0 =
      npGet s.rmsv (Int.ofNat (c.kkObsBI.getD j 0) - 1) ∧
    forecastIdx c = (analysisIdx c).map (fun i => i - 1) ∧
    c.kkObsBI = c.kkObs.drop c.kObsBI ∧
    reportAnalysis s c =
      (meanQ (selectI s.rmse (analysisIdx c)),
       meanQ (selectI s.rmsv (analysisIdx c))) ∧
    reportForecast s c =
      (meanQ (selectI s.rmse (forecastIdx c)),
       meanQ (selectI s.rmsv (forecastIdx c))) := by
  have hja : j < (analysisIdx c).length := by simpa [analysisIdx] using hj
  have hjf : j < (forecastIdx c).length := by simpa [forecastIdx] using hj
  have hA : (analysisIdx c).getD j 0 = Int.ofNat (c.kkObsBI.getD j 0) := by
    unfold analysisIdx
    exact getD_map_of_lt Int.ofNat c.kkObsBI 0 0 hj
  have hF : (forecastIdx c).getD j 0 = Int.ofNat (c.kkObsBI.getD j 0) - 1 := by
    unfold forecastIdx
    exact getD_map_of_lt (fun k => Int.ofNat k - 1) c.kkObsBI 0 0 hj
  refine ⟨?_, ?_, ?_, ?_, ?_, rfl, rfl, rfl⟩
  · rw [selectI_getD hja, hA]
  · rw [selectI_getD hja, hA]
  · rw [selectI_getD hjf, hF]
  · rw [selectI_getD hjf, hF]
  · unfold forecastIdx analysisIdx
    rw [List.map_map]
    rfl

/-- Witness for claim C6 at a concrete input. -/
theorem claim6_report_alignment_witness :
    (selectI (Stats.mk [1, 2, 3] [4, 5, 6]).rmse (analysisIdx chron1)).getD 0 0 =
      npGet (Stats.mk [1, 2, 3] [4, 5, 6]).rmse
        (Int.ofNat (chron1.kkObsBI.getD 0 0)) ∧
    (selectI (Stats.mk [1, 2, 3] [4, 5, 6]).rmsv (analysisIdx chron1)).getD 0 0 =
      npGet (Stats.mk [1, 2, 3] [4, 5, 6]).rmsv
        (Int.ofNat (chron1.kkObsBI.getD 0 0)) ∧
    (selectI (Stats.mk [1, 2, 3] [4, 5, 6]).rmse (forecastIdx chron1)).getD 0 0 =
      npGet (Stats.mk [1, 2, 3] [4, 5, 6]).rmse
        (Int.ofNat (chron1.kkObsBI.getD 0 0) - 1) ∧
    (selectI (Stats.mk [1, 2, 3] [4, 5, 6]).rmsv (forecastIdx chron1)).getD 0 0 =
      npGet (Stats.mk [1, 2, 3] [4, 5, 6]).rmsv
        (Int.ofNat (chron1.kkObsBI.getD 0 0) - 1) ∧
    forecastIdx chron1 = (analysisIdx chron1).map (fun i => i - 1) ∧
    chron1.kkObsBI = chron1.kkObs.drop chron1.kObsBI ∧
    reportAnalysis (Stats.mk [1, 2, 3] [4, 5, 6]) chron1 =
      (meanQ (selectI (Stats.mk [1, 2, 3] [4, 5, 6]).rmse (analysisIdx chron1)),
       meanQ (selectI (Stats.mk [1, 2, 3] [4, 5, 6]).rmsv (analysisIdx chron1))) ∧
    reportForecast (Stats.mk [1, 2, 3] [4, 5, 6]) chron1 =
      (meanQ (selectI (Stats.mk [1, 2, 3] [4, 5, 6]).rmse (forecastIdx chron1)),
       meanQ (selectI (Stats.mk [1, 2, 3] [4, 5, 6]).rmsv (forecastIdx chron1))) :=
  claim6_report_alignment (Stats.mk [1, 2, 3] [4, 5, 6]) chron1 0 (by decide)

/-- Claim C7, counterexample: the stated Chronology invariant alone does
not make all report reads in-bounds.  The chronology `chronZero`
satisfies the invariant, yet the forecast report reads the statistic
series at index `-1` (numpy would silently wrap it to the last entry, not
the intended pre-observation step). -/
theorem claim7_cex :
    Chronology.Inv chronZero ∧
    (forecastIdx chronZero).getD 0 0 = -1 ∧
    ¬ InBounds ((Assimilate pZero cfgTriv [] [] sqId sigma0 anzId 0 0).rmse.length)
      ((forecastIdx chronZero).getD 0 0) := by
  refine ⟨by decide, by decide, ?_⟩
  have hlen : (Assimilate pZero cfgTriv [] [] sqId sigma0 anzId 0 0).rmse.length =
      pZero.t.K + 1 := by simp [Assimilate]
  rw [hlen]
  decide

/-- Claim C7, amended: under the Chronology invariant strengthened by the
condition that every observation step index is at least `1` (as holds for
any chronology built from a positive observation spacing), every array
access of the generation and reporting code is in bounds: the truth rows
`xx[kkObs[k]]` for every observation index `k`, and the statistic series
reads at `kkObsBI` and `kkObsBI - 1`. -/
theorem claim7_access_bounds (P : Params) (cfg : Settings)
    (xx yy : List Vec) (sq : ℚ → ℚ) (σ : Nat → ℚ)
    (analyze : List Vec → Vec → List ℚ → List Vec) (anaDraws start : Nat)
    (hInv : P.t.Inv) (hpos : ∀ k ∈ P.t.kkObs, 1 ≤ k) :
    (∀ k, k < P.t.kkObs.length →
      P.t.kkObs.getD k 0 < (genTruth P.f P.X0 P.t sq σ).length) ∧
    (∀ i ∈ analysisIdx P.t,
      InBounds ((Assimilate P cfg xx yy sq σ analyze anaDraws start).rmse.length) i ∧
      InBounds ((Assimilate P cfg xx yy sq σ analyze anaDraws start).rmsv.length) i) ∧
    (∀ i ∈ forecastIdx P.t,
      InBounds ((Assimilate P cfg xx yy sq σ analyze anaDraws start).rmse.length) i ∧
      InBounds ((Assimilate P cfg xx yy sq σ analyze anaDraws start).rmsv.length) i) := by
  obtain ⟨hlen, hchain, hle, hbi⟩ := hInv
  have hsr : (Assimilate P cfg xx yy sq σ analyze anaDraws start).rmse.length =
      P.t.K + 1 := by simp [Assimilate]
  have hsv : (Assimilate P cfg xx yy sq σ analyze anaDraws start).rmsv.length =
      P.t.K + 1 := by simp [Assimilate]
  refine ⟨?_, ?_, ?_⟩
  · intro k hk
    rw [genTruth_length]
    have hmem : P.t.kkObs.getD k 0 ∈ P.t.kkObs := by
      rw [List.getD_eq_getElem?_getD, List.getElem?_eq_getElem hk]
      exact List.getElem_mem hk
    exact Nat.lt_succ_of_le (hle _ hmem)
  · intro i hi
    obtain ⟨k, hkmem, rfl⟩ := mem_analysisIdx hi
    have h1 := hle k hkmem
    constructor
    · rw [hsr]
      show 0 ≤ Int.ofNat k ∧ Int.ofNat k < ((P.t.K + 1 : Nat) : Int)
      simp only [Int.ofNat_eq_natCast]
      omega
    · rw [hsv]
      show 0 ≤ Int.ofNat k ∧ Int.ofNat k < ((P.t.K + 1 : Nat) : Int)
      simp only [Int.ofNat_eq_natCast]
      omega
  · intro i hi
    obtain ⟨k, hkmem, rfl⟩ := mem_forecastIdx hi
    have h1 := hle k hkmem
    have h2 := hpos k hkmem
    constructor
    · rw [hsr]
      show 0 ≤ Int.ofNat k - 1 ∧ Int.ofNat k - 1 < ((P.t.K + 1 : Nat) : Int)
      simp only [Int.ofNat_eq_natCast]
      omega
    · rw [hsv]
      show 0 ≤ Int.ofNat k - 1 ∧ Int.ofNat k - 1 < ((P.t.K + 1 : Nat) : Int)
      simp only [Int.ofNat_eq_natCast]
      omega

/-- Witness for the amended claim C7 at a concrete input. -/
theorem claim7_access_bounds_witness :
    (∀ k, k < pTriv.t.kkObs.length →
      pTriv.t.kkObs.getD k 0 < (genTruth pTriv.f pTriv.X0 pTriv.t sqId sigma0).length) ∧
    (∀ i ∈ analysisIdx pTriv.t,
      InBounds ((Assimilate pTriv cfgTriv [] [] sqId sigma0 anzId 0 0).rmse.length) i ∧
      InBounds ((Assimilate pTriv cfgTriv [] [] sqId sigma0 anzId 0 0).rmsv.length) i) ∧
    (∀ i ∈ forecastIdx pTriv.t,
      InBounds ((Assimilate pTriv cfgTriv [] [] sqId sigma0 anzId 0 0).rmse.length) i ∧
      InBounds ((Assimilate pTriv cfgTriv [] [] sqId sigma0 anzId 0 0).rmsv.length) i) :=
  claim7_access_bounds pTriv cfgTriv [] [] sqId sigma0 anzId 0 0
    (by decide) (by decide)

/-- Claim C8: the assimilation run does not modify the truth or
observation series it is given — the driver state carries them unchanged
through every step, and the run output exposes exactly the generated
series to the subsequent reporting and plotting. -/
theorem claim8_frame (P : Params) (cfg : Settings) (sq : ℚ → ℚ)
    (σ : Nat → ℚ) (analyze : List Vec → Vec → List ℚ → List Vec)
    (anaDraws : Nat) (xx yy : List Vec) (start : Nat) :
    (∀ k, (driverRows P cfg sq σ analyze anaDraws xx yy start k).xx = xx ∧
          (driverRows P cfg sq σ analyze anaDraws xx yy start k).yy = yy) ∧
    (runScript P cfg sq analyze anaDraws σ).xx = genTruth P.f P.X0 P.t sq σ ∧
    (runScript P cfg sq analyze anaDraws σ).yy =
      genObs P.h P.t (genTruth P.f P.X0 P.t sq σ) (truthDraws P.f P.t) σ :=
  ⟨fun k => driverRows_frame P cfg sq σ analyze anaDraws xx yy start k, rfl, rfl⟩

/-- Claim C10: noninterference of the algorithm configuration with
generation — for one fixed stream and fixed parameters, the truth and
observation series of the run output are identical across runs that
differ in the configuration (and even in the analysis variant and its
randomness budget), because generation never reads them and consumes the
stream first, at fixed positions. -/
theorem claim10_cfg_noninterference (P : Params) (cfg₁ cfg₂ : Settings)
    (sq : ℚ → ℚ) (a₁ a₂ : List Vec → Vec → List ℚ → List Vec)
    (d₁ d₂ : Nat) (σ : Nat → ℚ) :
    (runScript P cfg₁ sq a₁ d₁ σ).xx = (runScript P cfg₂ sq a₂ d₂ σ).xx ∧
    (runScript P cfg₁ sq a₁ d₁ σ).yy = (runScript P cfg₂ sq a₂ d₂ σ).yy :=
  ⟨rfl, rfl⟩

/-- Claim C9: the process-noise contribution to each truth step is the
fresh noise draw scaled by the square root of that step's size, so (for a
square-root function worthy of the name on that value) the squared
magnitude of the injected noise grows linearly with the step size. -/
theorem claim9_sqrt_dt_scaling (f : Model) (X0 : Sampler) (c : Chronology)
    (sq : ℚ → ℚ) (σ : Nat → ℚ) (k : Nat) (hk : k < c.K)
    (hlen : (f.model ((genTruth f X0 c sq σ).getD k [])
        (c.tt (k + 1) - c.dtt (k + 1)) (c.dtt (k + 1))).length =
      (f.noise.sample (streamBlock σ ((k + 1) * f.m) f.m)).length)
    (hsq : sq (c.dtt (k + 1)) * sq (c.dtt (k + 1)) = c.dtt (k + 1)) :
    vsub ((genTruth f X0 c sq σ).getD (k + 1) [])
        (f.model ((genTruth f X0 c sq σ).getD k [])
          (c.tt (k + 1) - c.dtt (k + 1)) (c.dtt (k + 1))) =
      vsmul (sq (c.dtt (k + 1)))
        (f.noise.sample (streamBlock σ ((k + 1) * f.m) f.m)) ∧
    sumSq (vsub ((genTruth f X0 c sq σ).getD (k + 1) [])
        (f.model ((genTruth f X0 c sq σ).getD k [])
          (c.tt (k + 1) - c.dtt (k + 1)) (c.dtt (k + 1)))) =
      c.dtt (k + 1) *
        sumSq (f.noise.sample (streamBlock σ ((k + 1) * f.m) f.m)) := by
  have hk1 : k < c.K + 1 := by omega
  have hk2 : k + 1 < c.K + 1 := by omega
  have hrow : (genTruth f X0 c sq σ).getD (k + 1) [] =
      vadd (f.model ((genTruth f X0 c sq σ).getD k [])
          (c.tt (k + 1) - c.dtt (k + 1)) (c.dtt (k + 1)))
        (vsmul (sq (c.dtt (k + 1)))
          (f.noise.sample (streamBlock σ ((k + 1) * f.m) f.m))) := by
    rw [genTruth_getD f X0 c sq σ hk2, genTruth_getD f X0 c sq σ hk1]
    simp [truthRow]
  have hcancel : vsub ((genTruth f X0 c sq σ).getD (k + 1) [])
      (f.model ((genTruth f X0 c sq σ).getD k [])
        (c.tt (k + 1) - c.dtt (k + 1)) (c.dtt (k + 1))) =
      vsmul (sq (c.dtt (k + 1)))
        (f.noise.sample (streamBlock σ ((k + 1) * f.m) f.m)) := by
    rw [hrow]
    exact vsub_vadd_left _ _ (by rw [length_vsmul]; exact hlen)
  refine ⟨hcancel, ?_⟩
  rw [hcancel, sumSq_vsmul, hsq]

/-- Witness for claim C9 at a concrete input. -/
theorem claim9_sqrt_dt_scaling_witness :
    vsub ((genTruth mTriv x0Triv chron1 sqId sigma0).getD 1 [])
        (mTriv.model ((genTruth mTriv x0Triv chron1 sqId sigma0).getD 0 [])
          (chron1.tt 1 - chron1.dtt 1) (chron1.dtt 1)) =
      vsmul (sqId (chron1.dtt 1))
        (mTriv.noise.sample (streamBlock sigma0 (1 * mTriv.m) mTriv.m)) ∧
    sumSq (vsub ((genTruth mTriv x0Triv chron1 sqId sigma0).getD 1 [])
        (mTriv.model ((genTruth mTriv x0Triv chron1 sqId sigma0).getD 0 [])
          (chron1.tt 1 - chron1.dtt 1) (chron1.dtt 1))) =
      chron1.dtt 1 *
        sumSq (mTriv.noise.sample (streamBlock sigma0 (1 * mTriv.m) mTriv.m)) :=
  claim9_sqrt_dt_scaling mTriv x0Triv chron1 sqId sigma0 0
    (by decide) (by decide) (by simp [sqId, chron1])

end DAPPER
